import Mathlib

set_option maxHeartbeats 1000000

namespace ShaderMesh

/-- Modulus of the uint32 dtype used for the index buffers. -/
def U32 : ℕ := 2 ^ 32

/-- The six index entries written for grid position (i, j) of a vertex grid with
S1 rows and T1 columns: two triangles with wrap-around row and column neighbours,
as in DisplayableSphere.generate and DisplayableTorus.generate.  Each entry is
reduced mod 2^32 by the uint32 numpy array that stores it. -/
def cellIndices (S1 T1 i j : ℕ) : List ℕ :=
  [(i * T1 + j) % U32,
   ((i + 1) % S1 * T1 + j) % U32,
   (i * T1 + (j + 1) % T1) % U32,
   ((i + 1) % S1 * T1 + (j + 1) % T1) % U32,
   ((i + 1) % S1 * T1 + j) % U32,
   (i * T1 + (j + 1) % T1) % U32]

/-- The flattened ("C" order) index buffer: the (S1*T1, 6) uint32 array whose row
i*T1+j holds `cellIndices S1 T1 i j`, flattened row-major.  Row k corresponds to
grid position (k / T1, k mod T1). -/
def flatIndices (S1 T1 : ℕ) : List ℕ :=
  (List.range (S1 * T1)).flatMap fun k => cellIndices S1 T1 (k / T1) (k % T1)

/-- The resolution clamp at the top of DisplayableSphere.generate:
`if slices < 3: slices = 3`. -/
def clamp3 (n : ℤ) : ℤ := if n < 3 then 3 else n

noncomputable section

open Real

/-- One row of the (count, 11) vertex array: position, normal, color, uv. -/
structure Vertex where
  px : ℝ
  py : ℝ
  pz : ℝ
  nx : ℝ
  ny : ℝ
  nz : ℝ
  cr : ℝ
  cg : ℝ
  cb : ℝ
  tu : ℝ
  tv : ℝ

instance : Inhabited Vertex := ⟨⟨0, 0, 0, 0, 0, 0, 0, 0, 0, 0, 0⟩⟩

/-- RGB color triple (the unpacked `*color`). -/
def Color : Type := ℝ × ℝ × ℝ

/-- Sample i of np.linspace(lo, hi, n+1), where d = n is the number of
subdivisions (count of samples minus one). -/
def linspace (lo hi d : ℝ) (i : ℕ) : ℝ := lo + i * ((hi - lo) / d)

/-- The flat vertex array: the (S1*T1, 11) array whose row i*T1+j is the vertex
built for grid position (i, j). -/
def flatVertices (S1 T1 : ℕ) (f : ℕ → ℕ → Vertex) : List Vertex :=
  (List.range (S1 * T1)).map fun k => f (k / T1) (k % T1)

/-- The vertex built by DisplayableSphere.generate for grid position (i, j),
with S, T the (already clamped) slices and stacks:
phi = linspace(-pi/2, pi/2, S+1) sample i, theta = linspace(-pi, pi, T+1)
sample j, position radius*(cos phi cos theta, cos phi sin theta, sin phi),
normal the same without the radius factor, uv = (j/stacks, i/slices). -/
def sphereVertex (radius : ℝ) (S T : ℕ) (c : Color) (i j : ℕ) : Vertex :=
  let phi := linspace (-(π / 2)) (π / 2) S i
  let theta := linspace (-π) π T j
  { px := radius * Real.cos phi * Real.cos theta
    py := radius * Real.cos phi * Real.sin theta
    pz := radius * Real.sin phi
    nx := Real.cos phi * Real.cos theta
    ny := Real.cos phi * Real.sin theta
    nz := Real.sin phi
    cr := c.1
    cg := c.2.1
    cb := c.2.2
    tu := j / (T : ℝ)
    tv := i / (S : ℝ) }

/-- The state DisplayableSphere.generate leaves behind: the stored (clamped)
descriptor and the two mesh buffers. -/
structure SphereOut where
  radius : ℝ
  slices : ℤ
  stacks' : ℤ
  vertices : List Vertex
  indices : List ℕ

/-- DisplayableSphere.generate: clamp slices and stacks below 3 up to 3, then
build the (slices+1) x (stacks+1) vertex grid and the per-grid-position index
blocks, flattened.  (The field holding the stored stacks count is spelled
stacks' because stacks is a reserved attribute name.) -/
def sphereGenerate (radius : ℝ) (slices stacks' : ℤ) (c : Color) : SphereOut :=
  let S := clamp3 slices
  let T := clamp3 stacks'
  { radius := radius
    slices := S
    stacks' := T
    vertices := flatVertices (S.toNat + 1) (T.toNat + 1) (sphereVertex radius S.toNat T.toNat c)
    indices := flatIndices (S.toNat + 1) (T.toNat + 1) }

/-- The vertex built by DisplayableTorus.generate for grid position (i, j):
u = linspace(-pi, pi, nsides+1) sample i, v = linspace(-pi, pi, rings+1)
sample j, comm = a + b cos v, position (comm cos u, comm sin u, b sin v),
normal sign(b) sign(comm) (cos u cos v, sin u cos v, sin v),
uv = (i/nsides, j/rings). -/
def torusVertex (a b : ℝ) (ns rs : ℤ) (c : Color) (i j : ℕ) : Vertex :=
  let u := linspace (-π) π (ns : ℝ) i
  let v := linspace (-π) π (rs : ℝ) j
  let comm := a + b * Real.cos v
  { px := comm * Real.cos u
    py := comm * Real.sin u
    pz := b * Real.sin v
    nx := Real.sign b * Real.cos u * Real.cos v * Real.sign comm
    ny := Real.sign b * Real.sin u * Real.cos v * Real.sign comm
    nz := Real.sign b * Real.sin v * Real.sign comm
    cr := c.1
    cg := c.2.1
    cb := c.2.2
    tu := i / (ns : ℝ)
    tv := j / (rs : ℝ) }

/-- The state DisplayableTorus.generate leaves behind on success. -/
structure TorusOut where
  innerRadius : ℝ
  outerRadius : ℝ
  nsides : ℤ
  rings : ℤ
  vertices : List Vertex
  indices : List ℕ

/-- The non-degenerate build phase of DisplayableTorus.generate (reached when
b is nonzero and no numpy/zero-division error fires). -/
def torusBuild (inner outer : ℝ) (ns rs : ℤ) (c : Color) : TorusOut :=
  let a := (outer + inner) / 2
  let b := (outer - inner) / 2
  { innerRadius := inner
    outerRadius := outer
    nsides := ns
    rings := rs
    vertices := flatVertices ((ns + 1).toNat) ((rs + 1).toNat) (torusVertex a b ns rs c)
    indices := flatIndices ((ns + 1).toNat) ((rs + 1).toNat) }

/-- DisplayableTorus.generate after the radius ordering: empty mesh when the
tube radius b = (outer - inner)/2 is zero; otherwise `none` models the
exceptions the Python code raises (np.zeros / np.linspace with a negative
count raise ValueError when nsides+1 < 0 or rings+1 < 0; the uv divisions
i/nsides and j/rings raise ZeroDivisionError when the loop body runs with a
zero division count, i.e. when nsides = 0 and rings+1 > 0, or rings = 0 and
nsides+1 > 0); otherwise the build runs to completion. -/
def torusGenerateOrdered (inner outer : ℝ) (ns rs : ℤ) (c : Color) : Option TorusOut :=
  if (outer - inner) / 2 = 0 then
    some { innerRadius := inner, outerRadius := outer, nsides := ns, rings := rs,
           vertices := [], indices := [] }
  else if ns + 1 < 0 ∨ rs + 1 < 0 then none
  else if (ns = 0 ∧ 0 ≤ rs) ∨ (rs = 0 ∧ 0 ≤ ns) then none
  else some (torusBuild inner outer ns rs c)

/-- DisplayableTorus.generate: swap the radii when innerRadius > outerRadius,
then run the ordered generation. -/
def torusGenerate (innerRadius outerRadius : ℝ) (ns rs : ℤ) (c : Color) : Option TorusOut :=
  if outerRadius < innerRadius then torusGenerateOrdered outerRadius innerRadius ns rs c
  else torusGenerateOrdered innerRadius outerRadius ns rs c

/-- A fixed concrete color used for concrete scenarios (ColorType.BLUE). -/
def someColor : Color := ((0 : ℝ), (0 : ℝ), (1 : ℝ))

/-- Euclidean norm of a position triple. -/
def norm3 (p : ℝ × ℝ × ℝ) : ℝ := Real.sqrt (p.1 ^ 2 + p.2.1 ^ 2 + p.2.2 ^ 2)

/-- Position triple stored in a vertex. -/
def posOf (v : Vertex) : ℝ × ℝ × ℝ := (v.px, v.py, v.pz)

/-- Triangle t of a flat index buffer: the index entries 3t, 3t+1, 3t+2. -/
def emittedTriple (ind : List ℕ) (t : ℕ) : ℕ × ℕ × ℕ :=
  (ind.getD (3 * t) 0, ind.getD (3 * t + 1) 0, ind.getD (3 * t + 2) 0)

/-- Dot product of the geometric normal (cross product of the two edges out of
the first triangle vertex) with the average of the three stored vertex
normals, for the triangle referencing vertices tr of the vertex list vs. -/
def triangleWindingDot (vs : List Vertex) (tr : ℕ × ℕ × ℕ) : ℝ :=
  let va := vs.getD tr.1 default
  let vb := vs.getD tr.2.1 default
  let vc := vs.getD tr.2.2 default
  let e1x := vb.px - va.px
  let e1y := vb.py - va.py
  let e1z := vb.pz - va.pz
  let e2x := vc.px - va.px
  let e2y := vc.py - va.py
  let e2z := vc.pz - va.pz
  let cx := e1y * e2z - e1z * e2y
  let cy := e1z * e2x - e1x * e2z
  let cz := e1x * e2y - e1y * e2x
  cx * ((va.nx + vb.nx + vc.nx) / 3) +
    cy * ((va.ny + vb.ny + vc.ny) / 3) +
    cz * ((va.nz + vb.nz + vc.nz) / 3)

/-- The three positions referenced by a triangle fail to be pairwise distinct. -/
def notPairwiseDistinctPos (vs : List Vertex) (tr : ℕ × ℕ × ℕ) : Prop :=
  posOf (vs.getD tr.1 default) = posOf (vs.getD tr.2.1 default) ∨
  posOf (vs.getD tr.1 default) = posOf (vs.getD tr.2.2 default) ∨
  posOf (vs.getD tr.2.1 default) = posOf (vs.getD tr.2.2 default)

end

/- ### Structural lemmas -/

theorem clamp3_ge (n : ℤ) : 3 ≤ clamp3 n := by
  unfold clamp3; split <;> omega

theorem clamp3_toNat_ge (n : ℤ) : 3 ≤ (clamp3 n).toNat := by
  have := clamp3_ge n; omega

theorem cellIndices_length (S1 T1 i j : ℕ) : (cellIndices S1 T1 i j).length = 6 := rfl

theorem sum_map_cellIndices_length (S1 T1 : ℕ) :
    ∀ l : List ℕ,
      (l.map (List.length ∘ fun k => cellIndices S1 T1 (k / T1) (k % T1))).sum = 6 * l.length := by
  intro l
  induction l with
  | nil => simp
  | cons a t ih =>
    simp only [List.map_cons, List.sum_cons, ih, Function.comp, cellIndices_length,
      List.length_cons]
    ring

theorem flatIndices_length (S1 T1 : ℕ) : (flatIndices S1 T1).length = 6 * (S1 * T1) := by
  unfold flatIndices
  rw [List.length_flatMap, sum_map_cellIndices_length, List.length_range]

theorem flatVertices_length (S1 T1 : ℕ) (f : ℕ → ℕ → Vertex) :
    (flatVertices S1 T1 f).length = S1 * T1 := by
  simp [flatVertices]

theorem rowcol_lt {a S1 T1 : ℕ} (h : a < S1 * T1) : a / T1 < S1 ∧ a % T1 < T1 := by
  have hT1 : 0 < T1 := by
    rcases Nat.eq_zero_or_pos T1 with h0 | h0
    · simp [h0] at h
    · exact h0
  refine ⟨Nat.div_lt_of_lt_mul ?_, Nat.mod_lt _ hT1⟩
  rw [mul_comm]; exact h

theorem grid_flat_lt {x y S1 T1 : ℕ} (hx : x < S1) (hy : y < T1) : x * T1 + y < S1 * T1 :=
  calc x * T1 + y < x * T1 + T1 := by omega
  _ = (x + 1) * T1 := by ring
  _ ≤ S1 * T1 := Nat.mul_le_mul_right _ (by omega)

theorem flatIndices_mem {S1 T1 k : ℕ} (hk : k ∈ flatIndices S1 T1) : k < S1 * T1 := by
  unfold flatIndices at hk
  rw [List.mem_flatMap] at hk
  obtain ⟨a, ha, hmem⟩ := hk
  rw [List.mem_range] at ha
  obtain ⟨hi, hj⟩ := rowcol_lt ha
  have hS1 : 0 < S1 := by
    rcases Nat.eq_zero_or_pos S1 with h0 | h0
    · simp [h0] at ha
    · exact h0
  have hi1 : (a / T1 + 1) % S1 < S1 := Nat.mod_lt _ hS1
  have hj1 : (a % T1 + 1) % T1 < T1 := Nat.mod_lt _ (by omega)
  have hbound : ∀ x y, x < S1 → y < T1 → (x * T1 + y) % U32 < S1 * T1 := by
    intro x y hx hy
    exact lt_of_le_of_lt (Nat.mod_le _ _) (grid_flat_lt hx hy)
  simp only [cellIndices, List.mem_cons, List.not_mem_nil, or_false] at hmem
  rcases hmem with h | h | h | h | h | h <;> subst h
  · exact hbound _ _ hi hj
  · exact hbound _ _ hi1 hj
  · exact hbound _ _ hi hj1
  · exact hbound _ _ hi1 hj1
  · exact hbound _ _ hi1 hj
  · exact hbound _ _ hi hj1

theorem getD_flatMap_six (f : ℕ → List ℕ) (hf : ∀ a, (f a).length = 6) :
    ∀ (l : List ℕ) (k e : ℕ), k < l.length → e < 6 → ∀ d,
      (l.flatMap f).getD (6 * k + e) d = (f (l.getD k 0)).getD e d := by
  intro l
  induction l with
  | nil =>
    intro k e hk
    simp at hk
  | cons a l ih =>
    intro k e hk he d
    cases k with
    | zero =>
      rw [List.flatMap_cons]
      have hlen : 6 * 0 + e < (f a).length := by rw [hf]; omega
      rw [List.getD_append _ _ _ _ hlen]
      simp
    | succ k =>
      rw [List.flatMap_cons]
      have hge : (f a).length ≤ 6 * (k + 1) + e := by rw [hf]; omega
      rw [List.getD_append_right _ _ _ _ hge]
      have harith : 6 * (k + 1) + e - (f a).length = 6 * k + e := by rw [hf]; omega
      rw [harith]
      have hk' : k < l.length := by simpa using hk
      rw [ih k e hk' he d]
      simp

theorem flatIndices_getD (S1 T1 k e : ℕ) (hk : k < S1 * T1) (he : e < 6) (d : ℕ) :
    (flatIndices S1 T1).getD (6 * k + e) d =
      (cellIndices S1 T1 (k / T1) (k % T1)).getD e d := by
  unfold flatIndices
  rw [getD_flatMap_six (fun k => cellIndices S1 T1 (k / T1) (k % T1))
    (fun a => rfl) _ k e (by simpa using hk) he d]
  have hr : (List.range (S1 * T1)).getD k 0 = k := by
    rw [List.getD_eq_getElem?_getD, List.getElem?_range hk]
    rfl
  rw [hr]

theorem flatVertices_getD (S1 T1 : ℕ) (f : ℕ → ℕ → Vertex) (i j : ℕ)
    (hi : i < S1) (hj : j < T1) (d : Vertex) :
    (flatVertices S1 T1 f).getD (i * T1 + j) d = f i j := by
  unfold flatVertices
  have hlt : i * T1 + j < S1 * T1 := grid_flat_lt hi hj
  rw [List.getD_eq_getElem?_getD, List.getElem?_map, List.getElem?_range hlt]
  have hdiv : (i * T1 + j) / T1 = i := by
    rw [add_comm, Nat.add_mul_div_right _ _ (by omega : 0 < T1), Nat.div_eq_of_lt hj]
    omega
  have hmod : (i * T1 + j) % T1 = j := by
    rw [add_comm, Nat.add_mul_mod_self_right, Nat.mod_eq_of_lt hj]
  simp [hdiv, hmod]

theorem clamp3_eq_max (n : ℤ) : clamp3 n = max 3 n := by
  unfold clamp3
  split <;> omega

theorem torusGenerateOrdered_build (inner outer : ℝ) (ns rs : ℤ) (c : Color)
    (hb : (outer - inner) / 2 ≠ 0) (h1 : 1 ≤ ns) (h2 : 1 ≤ rs) :
    torusGenerateOrdered inner outer ns rs c = some (torusBuild inner outer ns rs c) := by
  unfold torusGenerateOrdered
  rw [if_neg hb, if_neg (by omega), if_neg (by omega)]

theorem torusGenerate_quarter_half (ns rs : ℤ) (h1 : 1 ≤ ns) (h2 : 1 ≤ rs) (c : Color) :
    torusGenerate (1/4) (1/2) ns rs c = some (torusBuild (1/4) (1/2) ns rs c) := by
  unfold torusGenerate
  rw [if_neg (by norm_num)]
  exact torusGenerateOrdered_build _ _ _ _ _ (by norm_num) h1 h2

theorem torusGenerate_some_fields {inr outr : ℝ} {ns rs : ℤ} {c : Color} {m : TorusOut}
    (hm : torusGenerate inr outr ns rs c = some m) : m.nsides = ns ∧ m.rings = rs := by
  unfold torusGenerate torusGenerateOrdered at hm
  split_ifs at hm
  all_goals first
    | exact Option.noConfusion hm
    | (cases hm; exact ⟨rfl, rfl⟩)

theorem torusGenerate_some_build {inr outr : ℝ} {ns rs : ℤ} {c : Color} {m : TorusOut}
    (hm : torusGenerate inr outr ns rs c = some m) (hne : outr ≠ inr) :
    0 ≤ ns + 1 ∧ 0 ≤ rs + 1 ∧
      m.indices = flatIndices ((ns + 1).toNat) ((rs + 1).toNat) ∧
      m.vertices.length = ((ns + 1).toNat) * ((rs + 1).toNat) := by
  unfold torusGenerate torusGenerateOrdered at hm
  split_ifs at hm with hlt hb1 hc1 hd1 hb2 hc2 hd2
  all_goals first
    | exact Option.noConfusion hm
    | exact absurd (by linarith : outr = inr) hne
    | (cases hm
       refine ⟨by omega, by omega, rfl, ?_⟩
       simp [torusBuild, flatVertices_length])

/- ### Claim C7 -/

/-- Claim C7: torus swap idempotence.  For every pair of radii with r2 < r1 and
every nsides, rings and color, generate called with innerRadius = r1,
outerRadius = r2 produces exactly the same result (stored descriptor, vertex
array and index array) as generate called with innerRadius = r2,
outerRadius = r1. -/
theorem torus_swap_idempotent (r1 r2 : ℝ) (ns rs : ℤ) (c : Color) (h : r2 < r1) :
    torusGenerate r1 r2 ns rs c = torusGenerate r2 r1 ns rs c := by
  unfold torusGenerate
  rw [if_pos h, if_neg (not_lt.mpr h.le)]

/-- Witness for C7 at the concrete radii of the spec scenario:
generate(inner=0.5, outer=0.25) equals generate(inner=0.25, outer=0.5). -/
theorem torus_swap_idempotent_witness :
    torusGenerate (1/2) (1/4) 36 36 someColor = torusGenerate (1/4) (1/2) 36 36 someColor :=
  torus_swap_idempotent (1/2) (1/4) 36 36 someColor (by norm_num)

/- ### Claim C8 -/

/-- Claim C8: zero-thickness torus.  Whenever the tube radius
b = (outer - inner)/2 is zero after radius ordering (equivalently the two radii
are equal), generation short-circuits with an empty vertex list and an empty
index list, and no error is raised (the result is some mesh). -/
theorem torus_zero_thickness_empty (inner outer : ℝ) (ns rs : ℤ) (c : Color)
    (h : inner = outer) :
    ∃ m, torusGenerate inner outer ns rs c = some m ∧
      m.vertices = [] ∧ m.indices = [] := by
  subst h
  refine ⟨⟨inner, inner, ns, rs, [], []⟩, ?_, rfl, rfl⟩
  unfold torusGenerate torusGenerateOrdered
  rw [if_neg (lt_irrefl inner), if_pos (by simp)]

/-- Witness for C8 at the concrete radii of the spec scenario
(inner = outer = 0.3, so vertexCount = 0 and indexCount = 0). -/
theorem torus_zero_thickness_empty_witness :
    ∃ m, torusGenerate (3/10) (3/10) 36 36 someColor = some m ∧
      m.vertices = [] ∧ m.indices = [] :=
  torus_zero_thickness_empty (3/10) (3/10) 36 36 someColor rfl

/- ### Claim C1 -/

/-- Claim C1 (amended): only the sphere clamps its division counts.  The sphere
stores max(input, 3) for slices and stacks, hence always at least 3; the torus
stores nsides and rings exactly as given, with no clamp. -/
theorem resolution_clamp_sphere_only (radius : ℝ) (sl st : ℤ) (c : Color)
    (inr outr : ℝ) (ns rs : ℤ) (c2 : Color) (m : TorusOut)
    (hm : torusGenerate inr outr ns rs c2 = some m) :
    (sphereGenerate radius sl st c).slices = max 3 sl ∧
    (sphereGenerate radius sl st c).stacks' = max 3 st ∧
    3 ≤ (sphereGenerate radius sl st c).slices ∧
    3 ≤ (sphereGenerate radius sl st c).stacks' ∧
    m.nsides = ns ∧ m.rings = rs := by
  obtain ⟨hn, hr⟩ := torusGenerate_some_fields hm
  refine ⟨?_, ?_, ?_, ?_, hn, hr⟩ <;>
    simp [sphereGenerate, clamp3_eq_max, le_max_left]

/-- Witness for C1 at concrete inputs. -/
theorem resolution_clamp_sphere_only_witness :
    (sphereGenerate 1 1 1 someColor).slices = max 3 1 ∧
    (sphereGenerate 1 1 1 someColor).stacks' = max 3 1 ∧
    3 ≤ (sphereGenerate 1 1 1 someColor).slices ∧
    3 ≤ (sphereGenerate 1 1 1 someColor).stacks' ∧
    (torusBuild (1/4) (1/2) 4 4 someColor).nsides = 4 ∧
    (torusBuild (1/4) (1/2) 4 4 someColor).rings = 4 :=
  resolution_clamp_sphere_only 1 1 1 someColor (1/4) (1/2) 4 4 someColor
    (torusBuild (1/4) (1/2) 4 4 someColor)
    (torusGenerate_quarter_half 4 4 (by norm_num) (by norm_num) someColor)

/-- Counterexample for C1 as stated: a torus generate call with nsides = 2
stores a division count below 3 in its descriptor (no clamp is applied). -/
theorem torus_unclamped_counterexample :
    ∃ m, torusGenerate (1/4) (1/2) 2 4 someColor = some m ∧
      m.nsides = 2 ∧ ¬ 3 ≤ m.nsides :=
  ⟨torusBuild (1/4) (1/2) 2 4 someColor,
    torusGenerate_quarter_half 2 4 (by norm_num) (by norm_num) someColor,
    rfl, by rw [show (torusBuild (1/4) (1/2) 2 4 someColor).nsides = 2 from rfl]; norm_num⟩

/- ### Claim C4 -/

/-- Claim C4 (amended): the sphere generate is modeled as a total function (it
has no failure path), but torus generate is only guaranteed to succeed when
both division counts are at least 1; for every radii, color and counts
nsides, rings at least 1 it returns some mesh. -/
theorem torus_generate_succeeds (inr outr : ℝ) (ns rs : ℤ) (c : Color)
    (h1 : 1 ≤ ns) (h2 : 1 ≤ rs) :
    ∃ m, torusGenerate inr outr ns rs c = some m := by
  unfold torusGenerate
  split_ifs with hlt <;>
  · unfold torusGenerateOrdered
    split_ifs with hb hx hy
    · exact ⟨_, rfl⟩
    · exact absurd hx (by omega)
    · exact absurd hy (by omega)
    · exact ⟨_, rfl⟩

/-- Witness for C4 at concrete inputs. -/
theorem torus_generate_succeeds_witness :
    ∃ m, torusGenerate (1/4) (1/2) 36 36 someColor = some m :=
  torus_generate_succeeds (1/4) (1/2) 36 36 someColor (by norm_num) (by norm_num)

/-- Counterexample for C4 as stated: torus generate with nsides = 0 raises
(ZeroDivisionError in the i/nsides texture coordinate), modeled as none. -/
theorem torus_zero_nsides_fails :
    torusGenerate (1/4) (1/2) 0 4 someColor = none := by
  unfold torusGenerate torusGenerateOrdered
  norm_num

/- ### Claim C2 -/

/-- Claim C2: for every generated sphere mesh and every successfully generated
torus mesh with nonzero tube thickness, the flattened index buffer has length
exactly 6 * (divisions_a + 1) * (divisions_b + 1) (divisions as stored in the
descriptor), and every value in it is below the vertex count. -/
theorem index_buffer_invariant (radius : ℝ) (sl st : ℤ) (c : Color)
    (inr outr : ℝ) (ns rs : ℤ) (c2 : Color) (m : TorusOut)
    (hm : torusGenerate inr outr ns rs c2 = some m) (hne : outr ≠ inr) :
    ((sphereGenerate radius sl st c).indices.length =
        6 * (((sphereGenerate radius sl st c).slices.toNat + 1) *
          ((sphereGenerate radius sl st c).stacks'.toNat + 1)) ∧
      ∀ k ∈ (sphereGenerate radius sl st c).indices,
        k < (sphereGenerate radius sl st c).vertices.length) ∧
    ((m.indices.length : ℤ) = 6 * ((ns + 1) * (rs + 1)) ∧
      ∀ k ∈ m.indices, k < m.vertices.length) := by
  obtain ⟨h1, h2, hind, hvlen⟩ := torusGenerate_some_build hm hne
  refine ⟨⟨?_, ?_⟩, ?_, ?_⟩
  · simp [sphereGenerate, flatIndices_length]
  · intro k hk
    simp only [sphereGenerate] at hk ⊢
    rw [flatVertices_length]
    exact flatIndices_mem hk
  · rw [hind, flatIndices_length]
    push_cast [Int.toNat_of_nonneg h1, Int.toNat_of_nonneg h2]
    ring
  · intro k hk
    rw [hind] at hk
    rw [hvlen]
    exact flatIndices_mem hk

/-- Witness for C2 at concrete inputs (sphere 1, 3, 3; torus 0.25, 0.5, 4, 4). -/
theorem index_buffer_invariant_witness :
    ((1 : ℝ)/2 ≠ 1/4) ∧
    ((torusBuild (1/4) (1/2) 4 4 someColor).indices.length : ℤ) = 6 * ((4 + 1) * (4 + 1)) :=
  ⟨by norm_num,
    (index_buffer_invariant 1 3 3 someColor (1/4) (1/2) 4 4 someColor
      (torusBuild (1/4) (1/2) 4 4 someColor)
      (torusGenerate_quarter_half 4 4 (by norm_num) (by norm_num) someColor)
      (by norm_num)).2.1⟩

/- ### Claim C3 -/

/-- Claim C3 (amended): the index loop runs over the full vertex grid (one
6-entry block per grid position, with wrap-around), so the total index array
length is 6*(slices+1)*(stacks+1); in particular a sphere with radius = 1,
slices = 3, stacks = 3 has vertexCount = 16 and indexCount = 96. -/
theorem sphere_full_grid_index_count :
    (∀ (radius : ℝ) (sl st : ℤ) (c : Color),
        (sphereGenerate radius sl st c).indices.length =
          6 * (((clamp3 sl).toNat + 1) * ((clamp3 st).toNat + 1))) ∧
    (sphereGenerate 1 3 3 someColor).vertices.length = 16 ∧
    (sphereGenerate 1 3 3 someColor).indices.length = 96 := by
  refine ⟨fun radius sl st c => ?_, ?_, ?_⟩
  · simp [sphereGenerate, flatIndices_length]
  · simp [sphereGenerate, flatVertices_length, clamp3]
  · simp [sphereGenerate, flatIndices_length, clamp3]

/-- Counterexample for C3 as stated: the sphere with radius = 1, slices = 3,
stacks = 3 has index count 96, not 6*slices*stacks = 54. -/
theorem sphere_3x3_index_count_not_54 :
    (sphereGenerate 1 3 3 someColor).indices.length = 96 ∧
    (sphereGenerate 1 3 3 someColor).indices.length ≠ 54 := by
  have h : (sphereGenerate 1 3 3 someColor).indices.length = 96 := by
    simp [sphereGenerate, flatIndices_length, clamp3]
  exact ⟨h, by rw [h]; norm_num⟩

/- ### Trigonometric helper lemmas -/

theorem linspace_zero (lo hi d : ℝ) : linspace lo hi d 0 = lo := by
  simp [linspace]

theorem linspace_last (lo hi : ℝ) (n : ℕ) (h : (n : ℝ) ≠ 0) :
    linspace lo hi (n : ℝ) n = hi := by
  unfold linspace
  field_simp

theorem theta_seam_cos (T : ℕ) (hT : (T : ℝ) ≠ 0) :
    Real.cos (linspace (-Real.pi) Real.pi (T : ℝ) T) =
      Real.cos (linspace (-Real.pi) Real.pi (T : ℝ) 0) := by
  rw [linspace_last _ _ _ hT, linspace_zero, Real.cos_neg]

theorem theta_seam_sin (T : ℕ) (hT : (T : ℝ) ≠ 0) :
    Real.sin (linspace (-Real.pi) Real.pi (T : ℝ) T) =
      Real.sin (linspace (-Real.pi) Real.pi (T : ℝ) 0) := by
  rw [linspace_last _ _ _ hT, linspace_zero, Real.sin_neg, Real.sin_pi, neg_zero]

/- ### Claim C5 -/

theorem sphereVertex_norm_props (radius : ℝ) (S T : ℕ) (c : Color) (i j : ℕ)
    (hr : 0 < radius) :
    norm3 (posOf (sphereVertex radius S T c i j)) = radius ∧
    (sphereVertex radius S T c i j).nx = (sphereVertex radius S T c i j).px / radius ∧
    (sphereVertex radius S T c i j).ny = (sphereVertex radius S T c i j).py / radius ∧
    (sphereVertex radius S T c i j).nz = (sphereVertex radius S T c i j).pz / radius := by
  simp only [sphereVertex, norm3, posOf]
  set phi := linspace (-(Real.pi / 2)) (Real.pi / 2) (S : ℝ) i with hphi
  set theta := linspace (-Real.pi) Real.pi (T : ℝ) j with htheta
  refine ⟨?_, ?_, ?_, ?_⟩
  · have key : (radius * Real.cos phi * Real.cos theta) ^ 2 +
        (radius * Real.cos phi * Real.sin theta) ^ 2 + (radius * Real.sin phi) ^ 2 =
        radius ^ 2 := by
      linear_combination radius ^ 2 * (Real.cos phi) ^ 2 * Real.sin_sq_add_cos_sq theta +
        radius ^ 2 * Real.sin_sq_add_cos_sq phi
    rw [key]
    exact Real.sqrt_sq hr.le
  · rw [eq_div_iff (ne_of_gt hr)]; ring
  · rw [eq_div_iff (ne_of_gt hr)]; ring
  · rw [eq_div_iff (ne_of_gt hr)]; ring

/-- Claim C5: for every sphere mesh generated with radius > 0 (any slices and
stacks) and every vertex in it, the Euclidean norm of the stored position
equals the radius and the stored normal equals the position divided by the
radius. -/
theorem sphere_vertex_norm_radius (radius : ℝ) (sl st : ℤ) (c : Color)
    (hr : 0 < radius) :
    ∀ v ∈ (sphereGenerate radius sl st c).vertices,
      norm3 (posOf v) = radius ∧
      v.nx = v.px / radius ∧ v.ny = v.py / radius ∧ v.nz = v.pz / radius := by
  intro v hv
  simp only [sphereGenerate] at hv
  unfold flatVertices at hv
  rw [List.mem_map] at hv
  obtain ⟨k, _, rfl⟩ := hv
  exact sphereVertex_norm_props radius _ _ c _ _ hr

/-- Witness for C5 at radius 1, slices 3, stacks 3. -/
theorem sphere_vertex_norm_radius_witness :
    (0 : ℝ) < 1 ∧
    ∀ v ∈ (sphereGenerate 1 3 3 someColor).vertices,
      norm3 (posOf v) = 1 ∧
      v.nx = v.px / 1 ∧ v.ny = v.py / 1 ∧ v.nz = v.pz / 1 :=
  ⟨by norm_num, sphere_vertex_norm_radius 1 3 3 someColor (by norm_num)⟩

/- ### Claim C6 -/

theorem sphereVertex_seam (radius : ℝ) (S T : ℕ) (c : Color) (i : ℕ)
    (hT : (T : ℝ) ≠ 0) :
    posOf (sphereVertex radius S T c i T) = posOf (sphereVertex radius S T c i 0) ∧
    (sphereVertex radius S T c i T).nx = (sphereVertex radius S T c i 0).nx ∧
    (sphereVertex radius S T c i T).ny = (sphereVertex radius S T c i 0).ny ∧
    (sphereVertex radius S T c i T).nz = (sphereVertex radius S T c i 0).nz := by
  have hc := theta_seam_cos T hT
  have hs := theta_seam_sin T hT
  refine ⟨?_, ?_, ?_, ?_⟩ <;> simp only [sphereVertex, posOf, hc, hs]

/-- Claim C6 (amended): sphere seam continuity holds along the second grid
axis.  For every generated sphere and every row i, the vertex at grid position
(i, 0) and the vertex at grid position (i, stacks) have identical position and
identical normal, while their UV first components are 0 and 1 respectively. -/
theorem sphere_seam_column (radius : ℝ) (sl st : ℤ) (c : Color) (i : ℕ)
    (hi : i ≤ (clamp3 sl).toNat) :
    let T := (clamp3 st).toNat
    let vs := (sphereGenerate radius sl st c).vertices
    posOf (vs.getD (i * (T + 1)) default) = posOf (vs.getD (i * (T + 1) + T) default) ∧
    (vs.getD (i * (T + 1)) default).nx = (vs.getD (i * (T + 1) + T) default).nx ∧
    (vs.getD (i * (T + 1)) default).ny = (vs.getD (i * (T + 1) + T) default).ny ∧
    (vs.getD (i * (T + 1)) default).nz = (vs.getD (i * (T + 1) + T) default).nz ∧
    (vs.getD (i * (T + 1)) default).tu = 0 ∧
    (vs.getD (i * (T + 1) + T) default).tu = 1 := by
  intro T vs
  have hT3 : 3 ≤ T := clamp3_toNat_ge st
  have hS3 : 3 ≤ (clamp3 sl).toNat := clamp3_toNat_ge sl
  have hTR : (T : ℝ) ≠ 0 := Nat.cast_ne_zero.mpr (by omega)
  have hvs : vs = flatVertices ((clamp3 sl).toNat + 1) (T + 1)
      (sphereVertex radius (clamp3 sl).toNat T c) := rfl
  have h0 : (flatVertices ((clamp3 sl).toNat + 1) (T + 1)
      (sphereVertex radius (clamp3 sl).toNat T c)).getD (i * (T + 1)) default =
      sphereVertex radius (clamp3 sl).toNat T c i 0 :=
    flatVertices_getD ((clamp3 sl).toNat + 1) (T + 1)
      (sphereVertex radius (clamp3 sl).toNat T c) i 0 (by omega) (by omega) default
  have hTT : (flatVertices ((clamp3 sl).toNat + 1) (T + 1)
      (sphereVertex radius (clamp3 sl).toNat T c)).getD (i * (T + 1) + T) default =
      sphereVertex radius (clamp3 sl).toNat T c i T :=
    flatVertices_getD ((clamp3 sl).toNat + 1) (T + 1)
      (sphereVertex radius (clamp3 sl).toNat T c) i T (by omega) (by omega) default
  rw [hvs, h0, hTT]
  obtain ⟨hp, hnx, hny, hnz⟩ := sphereVertex_seam radius (clamp3 sl).toNat T c i hTR
  refine ⟨hp.symm, hnx.symm, hny.symm, hnz.symm, ?_, ?_⟩
  · simp [sphereVertex]
  · simp only [sphereVertex]
    exact div_self hTR

/-- Witness for C6 at radius 1, slices 3, stacks 3, row 0. -/
theorem sphere_seam_column_witness :
    0 ≤ (clamp3 3).toNat ∧
    (let T := (clamp3 3).toNat
     let vs := (sphereGenerate 1 3 3 someColor).vertices
     posOf (vs.getD (0 * (T + 1)) default) = posOf (vs.getD (0 * (T + 1) + T) default) ∧
     (vs.getD (0 * (T + 1)) default).nx = (vs.getD (0 * (T + 1) + T) default).nx ∧
     (vs.getD (0 * (T + 1)) default).ny = (vs.getD (0 * (T + 1) + T) default).ny ∧
     (vs.getD (0 * (T + 1)) default).nz = (vs.getD (0 * (T + 1) + T) default).nz ∧
     (vs.getD (0 * (T + 1)) default).tu = 0 ∧
     (vs.getD (0 * (T + 1) + T) default).tu = 1) :=
  ⟨by decide, sphere_seam_column 1 3 3 someColor 0 (by decide)⟩

/-- Counterexample for C6 as stated: on the first grid axis the sphere rows 0
and slices are the two poles, whose positions differ.  With radius = 1,
slices = 3, stacks = 3, the vertex at grid position (0, 0) (flat position 0)
has z = -1 while the vertex at grid position (3, 0) (flat position 12) has
z = 1. -/
theorem sphere_seam_rows_differ :
    ((sphereGenerate 1 3 3 someColor).vertices.getD 0 default).pz = -1 ∧
    ((sphereGenerate 1 3 3 someColor).vertices.getD 12 default).pz = 1 ∧
    posOf ((sphereGenerate 1 3 3 someColor).vertices.getD 0 default) ≠
      posOf ((sphereGenerate 1 3 3 someColor).vertices.getD 12 default) := by
  have hv : (sphereGenerate 1 3 3 someColor).vertices =
      flatVertices 4 4 (sphereVertex 1 3 3 someColor) := rfl
  have h0 : (flatVertices 4 4 (sphereVertex 1 3 3 someColor)).getD 0 default =
      sphereVertex 1 3 3 someColor 0 0 :=
    flatVertices_getD 4 4 (sphereVertex 1 3 3 someColor) 0 0
      (by norm_num) (by norm_num) default
  have h12 : (flatVertices 4 4 (sphereVertex 1 3 3 someColor)).getD 12 default =
      sphereVertex 1 3 3 someColor 3 0 :=
    flatVertices_getD 4 4 (sphereVertex 1 3 3 someColor) 3 0
      (by norm_num) (by norm_num) default
  have hz0 : (sphereVertex 1 3 3 someColor 0 0).pz = -1 := by
    simp [sphereVertex, linspace]
  have hlast : linspace (-(Real.pi / 2)) (Real.pi / 2) ((3 : ℕ) : ℝ) 3 = Real.pi / 2 :=
    linspace_last _ _ 3 (by norm_num)
  have hz12 : (sphereVertex 1 3 3 someColor 3 0).pz = 1 := by
    simp only [sphereVertex]
    rw [hlast, Real.sin_pi_div_two, one_mul]
  refine ⟨by rw [hv, h0, hz0], by rw [hv, h12, hz12], ?_⟩
  intro h
  have hzz := congrArg (fun p => p.2.2) h
  simp only [posOf] at hzz
  rw [hv, h0, h12, hz0, hz12] at hzz
  norm_num at hzz

/- ### Claim C10 -/

theorem sphereVertex_pole0_pos_eq (radius : ℝ) (S T : ℕ) (c : Color) (j j' : ℕ) :
    posOf (sphereVertex radius S T c 0 j) = posOf (sphereVertex radius S T c 0 j') := by
  have h0 : linspace (-(Real.pi / 2)) (Real.pi / 2) (S : ℝ) 0 = -(Real.pi / 2) :=
    linspace_zero _ _ _
  simp only [sphereVertex, posOf, h0, Real.cos_neg, Real.cos_pi_div_two]
  norm_num

theorem sphereVertex_poleS_pos_eq (radius : ℝ) (S T : ℕ) (c : Color) (j j' : ℕ)
    (hS : (S : ℝ) ≠ 0) :
    posOf (sphereVertex radius S T c S j) = posOf (sphereVertex radius S T c S j') := by
  have hl : linspace (-(Real.pi / 2)) (Real.pi / 2) (S : ℝ) S = Real.pi / 2 :=
    linspace_last _ _ _ hS
  simp only [sphereVertex, posOf, hl, Real.cos_pi_div_two]
  norm_num

/-- Claim C10: every generated sphere mesh contains emitted triples whose three
referenced vertices do not have three pairwise-distinct positions.  Three such
triples are exhibited: one from the first pole row, one from a cell anchored at
the duplicate final row, and one from a cell anchored at the duplicate final
column.  (The size bound keeps the uint32 index cast from wrapping.) -/
theorem sphere_emits_degenerate_triangles (radius : ℝ) (sl st : ℤ) (c : Color)
    (hsz : ((clamp3 sl).toNat + 1) * ((clamp3 st).toNat + 1) ≤ U32) :
    ∃ t1 t2 t3 : ℕ, t1 ≠ t2 ∧ t1 ≠ t3 ∧ t2 ≠ t3 ∧
      (3 * t1 + 2 < (sphereGenerate radius sl st c).indices.length ∧
        notPairwiseDistinctPos (sphereGenerate radius sl st c).vertices
          (emittedTriple (sphereGenerate radius sl st c).indices t1)) ∧
      (3 * t2 + 2 < (sphereGenerate radius sl st c).indices.length ∧
        notPairwiseDistinctPos (sphereGenerate radius sl st c).vertices
          (emittedTriple (sphereGenerate radius sl st c).indices t2)) ∧
      (3 * t3 + 2 < (sphereGenerate radius sl st c).indices.length ∧
        notPairwiseDistinctPos (sphereGenerate radius sl st c).vertices
          (emittedTriple (sphereGenerate radius sl st c).indices t3)) := by
  have hS3 : 3 ≤ (clamp3 sl).toNat := clamp3_toNat_ge sl
  have hT3 : 3 ≤ (clamp3 st).toNat := clamp3_toNat_ge st
  set S := (clamp3 sl).toNat with hSdef
  set T := (clamp3 st).toNat with hTdef
  have hind : (sphereGenerate radius sl st c).indices = flatIndices (S + 1) (T + 1) := rfl
  have hvert : (sphereGenerate radius sl st c).vertices =
      flatVertices (S + 1) (T + 1) (sphereVertex radius S T c) := rfl
  have hP : 0 < (S + 1) * (T + 1) := Nat.mul_pos (by omega) (by omega)
  have hsplit : (S + 1) * (T + 1) = S * (T + 1) + (T + 1) := by ring
  have hge : 3 * (T + 1) ≤ S * (T + 1) := Nat.mul_le_mul_right _ hS3
  have hlen : (sphereGenerate radius sl st c).indices.length = 6 * ((S + 1) * (T + 1)) := by
    rw [hind, flatIndices_length]
  have hTR : (T : ℝ) ≠ 0 := Nat.cast_ne_zero.mpr (by omega)
  have hSR : (S : ℝ) ≠ 0 := Nat.cast_ne_zero.mpr (by omega)
  have hU1 : (1 : ℕ) % U32 = 1 := Nat.mod_eq_of_lt (by norm_num [U32])
  have k2 : S * (T + 1) < (S + 1) * (T + 1) := by omega
  have k3 : (T + 1) + T < (S + 1) * (T + 1) := by omega
  refine ⟨0, 2 * (S * (T + 1)), 2 * ((T + 1) + T), by omega, by omega, by omega,
    ⟨by omega, ?_⟩, ⟨by omega, ?_⟩, ⟨by omega, ?_⟩⟩
  · -- pole-row triple 0: entries 0 and 2 reference vertices 0 and 1, both at the pole
    have e0 : (flatIndices (S + 1) (T + 1)).getD 0 0 = 0 := by
      have h := flatIndices_getD (S + 1) (T + 1) 0 0 hP (by omega) 0
      simp only [Nat.mul_zero, Nat.add_zero, Nat.zero_div, Nat.zero_mod] at h
      rw [h]
      simp [cellIndices]
    have e2 : (flatIndices (S + 1) (T + 1)).getD 2 0 = 1 := by
      have h := flatIndices_getD (S + 1) (T + 1) 0 2 hP (by omega) 0
      simp only [Nat.mul_zero, Nat.zero_add, Nat.zero_div, Nat.zero_mod] at h
      rw [h]
      simp only [cellIndices, List.getD_cons_succ, List.getD_cons_zero, Nat.zero_mul,
        Nat.zero_add]
      rw [Nat.mod_eq_of_lt (show 1 < T + 1 by omega), hU1]
    have v0 : (flatVertices (S + 1) (T + 1) (sphereVertex radius S T c)).getD 0 default =
        sphereVertex radius S T c 0 0 := by
      have h := flatVertices_getD (S + 1) (T + 1) (sphereVertex radius S T c) 0 0
        (by omega) (by omega) default
      simpa using h
    have v1 : (flatVertices (S + 1) (T + 1) (sphereVertex radius S T c)).getD 1 default =
        sphereVertex radius S T c 0 1 := by
      have h := flatVertices_getD (S + 1) (T + 1) (sphereVertex radius S T c) 0 1
        (by omega) (by omega) default
      simpa using h
    refine Or.inr (Or.inl ?_)
    simp only [emittedTriple, hind, hvert, Nat.mul_zero, Nat.zero_add]
    rw [e0, e2, v0, v1]
    exact sphereVertex_pole0_pos_eq radius S T c 0 1
  · -- duplicate-final-row triple: entries reference vertices (S,0) and (S,1), both poles
    have e0 : (flatIndices (S + 1) (T + 1)).getD (6 * (S * (T + 1))) 0 = S * (T + 1) := by
      have h := flatIndices_getD (S + 1) (T + 1) (S * (T + 1)) 0 k2 (by omega) 0
      simp only [Nat.add_zero] at h
      rw [Nat.mul_div_cancel _ (show 0 < T + 1 by omega), Nat.mul_mod_left] at h
      rw [h]
      simp only [cellIndices, List.getD_cons_zero, Nat.add_zero]
      exact Nat.mod_eq_of_lt (by omega)
    have e2 : (flatIndices (S + 1) (T + 1)).getD (6 * (S * (T + 1)) + 2) 0 =
        S * (T + 1) + 1 := by
      have h := flatIndices_getD (S + 1) (T + 1) (S * (T + 1)) 2 k2 (by omega) 0
      rw [Nat.mul_div_cancel _ (show 0 < T + 1 by omega), Nat.mul_mod_left] at h
      rw [h]
      simp only [cellIndices, List.getD_cons_succ, List.getD_cons_zero, Nat.zero_add]
      rw [Nat.mod_eq_of_lt (show 1 < T + 1 by omega)]
      exact Nat.mod_eq_of_lt (by omega)
    have vS0 : (flatVertices (S + 1) (T + 1) (sphereVertex radius S T c)).getD
        (S * (T + 1)) default = sphereVertex radius S T c S 0 := by
      have h := flatVertices_getD (S + 1) (T + 1) (sphereVertex radius S T c) S 0
        (by omega) (by omega) default
      simpa using h
    have vS1 : (flatVertices (S + 1) (T + 1) (sphereVertex radius S T c)).getD
        (S * (T + 1) + 1) default = sphereVertex radius S T c S 1 :=
      flatVertices_getD (S + 1) (T + 1) (sphereVertex radius S T c) S 1
        (by omega) (by omega) default
    refine Or.inr (Or.inl ?_)
    simp only [emittedTriple, hind, hvert]
    rw [show 3 * (2 * (S * (T + 1))) = 6 * (S * (T + 1)) by ring, e0, e2, vS0, vS1]
    exact sphereVertex_poleS_pos_eq radius S T c 0 1 hSR
  · -- duplicate-final-column triple: entries reference vertices (1,T) and (1,0), the seam
    have hdiv3 : ((T + 1) + T) / (T + 1) = 1 := by
      rw [add_comm, Nat.add_div_right _ (by omega), Nat.div_eq_of_lt (by omega)]
    have hmod3 : ((T + 1) + T) % (T + 1) = T := by
      rw [add_comm, Nat.add_mod_right]
      exact Nat.mod_eq_of_lt (by omega)
    have e0 : (flatIndices (S + 1) (T + 1)).getD (6 * ((T + 1) + T)) 0 = (T + 1) + T := by
      have h := flatIndices_getD (S + 1) (T + 1) ((T + 1) + T) 0 k3 (by omega) 0
      simp only [Nat.add_zero] at h
      rw [hdiv3, hmod3] at h
      rw [h]
      simp only [cellIndices, List.getD_cons_zero, Nat.one_mul]
      exact Nat.mod_eq_of_lt (by omega)
    have e2 : (flatIndices (S + 1) (T + 1)).getD (6 * ((T + 1) + T) + 2) 0 = T + 1 := by
      have h := flatIndices_getD (S + 1) (T + 1) ((T + 1) + T) 2 k3 (by omega) 0
      rw [hdiv3, hmod3] at h
      rw [h]
      simp only [cellIndices, List.getD_cons_succ, List.getD_cons_zero, Nat.one_mul,
        Nat.mod_self, Nat.add_zero]
      exact Nat.mod_eq_of_lt (by omega)
    have vc1 : (flatVertices (S + 1) (T + 1) (sphereVertex radius S T c)).getD
        ((T + 1) + T) default = sphereVertex radius S T c 1 T := by
      have h := flatVertices_getD (S + 1) (T + 1) (sphereVertex radius S T c) 1 T
        (by omega) (by omega) default
      rw [one_mul] at h
      exact h
    have vc0 : (flatVertices (S + 1) (T + 1) (sphereVertex radius S T c)).getD
        (T + 1) default = sphereVertex radius S T c 1 0 := by
      have h := flatVertices_getD (S + 1) (T + 1) (sphereVertex radius S T c) 1 0
        (by omega) (by omega) default
      simpa using h
    refine Or.inr (Or.inl ?_)
    simp only [emittedTriple, hind, hvert]
    rw [show 3 * (2 * ((T + 1) + T)) = 6 * ((T + 1) + T) by ring, e0, e2, vc1, vc0]
    exact (sphereVertex_seam radius S T c 1 hTR).1

/-- Witness for C10 at radius 1, slices 3, stacks 3. -/
theorem sphere_emits_degenerate_triangles_witness :
    ((clamp3 3).toNat + 1) * ((clamp3 3).toNat + 1) ≤ U32 ∧
    (∃ t1 t2 t3 : ℕ, t1 ≠ t2 ∧ t1 ≠ t3 ∧ t2 ≠ t3 ∧
      (3 * t1 + 2 < (sphereGenerate 1 3 3 someColor).indices.length ∧
        notPairwiseDistinctPos (sphereGenerate 1 3 3 someColor).vertices
          (emittedTriple (sphereGenerate 1 3 3 someColor).indices t1)) ∧
      (3 * t2 + 2 < (sphereGenerate 1 3 3 someColor).indices.length ∧
        notPairwiseDistinctPos (sphereGenerate 1 3 3 someColor).vertices
          (emittedTriple (sphereGenerate 1 3 3 someColor).indices t2)) ∧
      (3 * t3 + 2 < (sphereGenerate 1 3 3 someColor).indices.length ∧
        notPairwiseDistinctPos (sphereGenerate 1 3 3 someColor).vertices
          (emittedTriple (sphereGenerate 1 3 3 someColor).indices t3))) :=
  ⟨by decide, sphere_emits_degenerate_triangles 1 3 3 someColor (by decide)⟩

/- ### Claim C9 -/

/-- Claim C9 (failing input): the winding is not counter-clockwise for every
emitted triangle.  For the torus generated with inner = 0.25, outer = 0.5,
nsides = 4, rings = 4, the second triangle of cell (2,2) (triple index 25,
referencing vertices 18, 17, 13) has geometric normal whose dot product with
the average of the three stored vertex normals is -3/64 < 0: the triangle is
wound clockwise, against the outward normal. -/
theorem torus_triangle_wound_clockwise :
    ∃ m, torusGenerate (1/4) (1/2) 4 4 someColor = some m ∧
      emittedTriple m.indices 25 = (18, 17, 13) ∧
      triangleWindingDot m.vertices (emittedTriple m.indices 25) = -(3/64) ∧
      triangleWindingDot m.vertices (emittedTriple m.indices 25) < 0 := by
  have hverts : (torusBuild (1/4) (1/2) 4 4 someColor).vertices =
      flatVertices 5 5 (torusVertex (((1:ℝ)/2 + 1/4)/2) (((1:ℝ)/2 - 1/4)/2) 4 4 someColor) :=
    rfl
  have etr : emittedTriple (torusBuild (1/4) (1/2) 4 4 someColor).indices 25 = (18, 17, 13) := by
    decide
  have hu2 : linspace (-Real.pi) Real.pi (((4:ℤ)) : ℝ) 2 = 0 := by
    unfold linspace
    push_cast
    ring
  have hu3 : linspace (-Real.pi) Real.pi (((4:ℤ)) : ℝ) 3 = Real.pi / 2 := by
    unfold linspace
    push_cast
    ring
  have hsb : Real.sign ((((1:ℝ)/2 - 1/4)/2)) = 1 := Real.sign_of_pos (by norm_num)
  have f33 : torusVertex (((1:ℝ)/2 + 1/4)/2) (((1:ℝ)/2 - 1/4)/2) 4 4 someColor 3 3 =
      ⟨0, 3/8, 1/8, 0, 0, 1, 0, 0, 1, 3/4, 3/4⟩ := by
    simp only [torusVertex]
    rw [hu3, Real.cos_pi_div_two, Real.sin_pi_div_two, hsb,
      show ((1:ℝ)/2 + 1/4)/2 + ((1:ℝ)/2 - 1/4)/2 * 0 = 3/8 by norm_num,
      Real.sign_of_pos (show (0:ℝ) < 3/8 by norm_num)]
    norm_num [Vertex.mk.injEq, someColor]
  have f32 : torusVertex (((1:ℝ)/2 + 1/4)/2) (((1:ℝ)/2 - 1/4)/2) 4 4 someColor 3 2 =
      ⟨0, 1/2, 0, 0, 1, 0, 0, 0, 1, 3/4, 1/2⟩ := by
    simp only [torusVertex]
    rw [hu3, hu2, Real.cos_pi_div_two, Real.sin_pi_div_two, Real.cos_zero, Real.sin_zero,
      hsb, show ((1:ℝ)/2 + 1/4)/2 + ((1:ℝ)/2 - 1/4)/2 * 1 = 1/2 by norm_num,
      Real.sign_of_pos (show (0:ℝ) < 1/2 by norm_num)]
    norm_num [Vertex.mk.injEq, someColor]
  have f23 : torusVertex (((1:ℝ)/2 + 1/4)/2) (((1:ℝ)/2 - 1/4)/2) 4 4 someColor 2 3 =
      ⟨3/8, 0, 1/8, 0, 0, 1, 0, 0, 1, 1/2, 3/4⟩ := by
    simp only [torusVertex]
    rw [hu3, hu2, Real.cos_pi_div_two, Real.sin_pi_div_two, Real.cos_zero, Real.sin_zero,
      hsb, show ((1:ℝ)/2 + 1/4)/2 + ((1:ℝ)/2 - 1/4)/2 * 0 = 3/8 by norm_num,
      Real.sign_of_pos (show (0:ℝ) < 3/8 by norm_num)]
    norm_num [Vertex.mk.injEq, someColor]
  have v18 : (flatVertices 5 5 (torusVertex (((1:ℝ)/2 + 1/4)/2) (((1:ℝ)/2 - 1/4)/2) 4 4
      someColor)).getD 18 default =
      torusVertex (((1:ℝ)/2 + 1/4)/2) (((1:ℝ)/2 - 1/4)/2) 4 4 someColor 3 3 :=
    flatVertices_getD 5 5 _ 3 3 (by norm_num) (by norm_num) default
  have v17 : (flatVertices 5 5 (torusVertex (((1:ℝ)/2 + 1/4)/2) (((1:ℝ)/2 - 1/4)/2) 4 4
      someColor)).getD 17 default =
      torusVertex (((1:ℝ)/2 + 1/4)/2) (((1:ℝ)/2 - 1/4)/2) 4 4 someColor 3 2 :=
    flatVertices_getD 5 5 _ 3 2 (by norm_num) (by norm_num) default
  have v13 : (flatVertices 5 5 (torusVertex (((1:ℝ)/2 + 1/4)/2) (((1:ℝ)/2 - 1/4)/2) 4 4
      someColor)).getD 13 default =
      torusVertex (((1:ℝ)/2 + 1/4)/2) (((1:ℝ)/2 - 1/4)/2) 4 4 someColor 2 3 :=
    flatVertices_getD 5 5 _ 2 3 (by norm_num) (by norm_num) default
  have key : triangleWindingDot (torusBuild (1/4) (1/2) 4 4 someColor).vertices
      (18, 17, 13) = -(3/64) := by
    rw [hverts]
    unfold triangleWindingDot
    dsimp only
    rw [v18, v17, v13, f33, f32, f23]
    norm_num
  exact ⟨torusBuild (1/4) (1/2) 4 4 someColor,
    torusGenerate_quarter_half 4 4 (by norm_num) (by norm_num) someColor,
    etr, by rw [etr]; exact key, by rw [etr, key]; norm_num⟩

end ShaderMesh
